import Mathlib

/-!
# Verification of the TestFront libretro host adapter (`src/core.h`)

This file gives a shallow embedding of the data model and operations of the
`Core` adapter class declared in `src/core.h` and proves the specification
claims about them.

Strings are modelled as `List Char` (cores exchange plain byte strings; the
adapter stores them as `std::string`).  `QString::indexOf` is modelled by
`firstIdx`, `QString::mid` by `List.take`/`List.drop`, and
`QString::split( '|' )` (with its default keep-empty-parts behaviour) by
`splitOnChar`.
-/

set_option autoImplicit false

namespace Core

/-- Model of `QString::indexOf`-style substring search restricted to what the
`Variable` constructor needs: `isPrefixAt pat s` is `true` iff `pat` is a
prefix of `s` (the boolean counterpart of `∃ r, pat ++ r = s`). -/
def isPrefixAt : List Char → List Char → Bool
  | [], _ => true
  | _ :: _, [] => false
  | a :: as, b :: bs => a = b && isPrefixAt as bs

/-- Model of `QString::indexOf( pat )`: the index of the first occurrence of
`pat` as a contiguous substring of `s`, or `none` when absent (the C++ code
signals absence with `-1`). -/
def firstIdx (pat : List Char) : List Char → Option Nat
  | [] => if isPrefixAt pat [] then some 0 else none
  | b :: bs =>
    if isPrefixAt pat (b :: bs) then some 0
    else (firstIdx pat bs).map (· + 1)

/-- Model of `QString::split( c )` with the default `KeepEmptyParts`
behaviour: splitting keeps empty entries (`"" ↦ [""]`, `"|" ↦ ["", ""]`),
preserves order and never merges duplicates. -/
def splitOnChar (c : Char) : List Char → List (List Char)
  | [] => [[]]
  | x :: xs =>
    if x = c then [] :: splitOnChar c xs
    else
      match splitOnChar c xs with
      | [] => [[x]]
      | y :: ys => (x :: y) :: ys

/-- The literal separator `"; "` used by the `Variable` constructor. -/
def sepList : List Char := [';', ' ']

/-- Model of `struct retro_variable` (libretro): a key and the raw option
descriptor string handed to the frontend. -/
structure retro_variable where
  key : List Char
  value : List Char

/-- Model of `Core::Variable` (src/core.h lines 311-373): key, current value,
description and choice list, each defaulting to empty exactly as the
default-constructed C++ members do. -/
structure Variable where
  m_key : List Char := []
  m_value : List Char := []
  m_description : List Char := []
  m_choices : List (List Char) := []

/-- The default constructor `Variable()` (src/core.h line 313): all members
empty. -/
def Variable.mkDefault : Variable := {}

/-- The parsing constructor `Variable( const retro_variable *var )`
(src/core.h lines 315-333): store the key; search the descriptor for the
first `"; "`; when found, the text before it becomes the description and the
text after it is split on `'|'` into the choice list; when absent, nothing
besides the key is recorded. -/
def Variable.ofRetroVariable (var : retro_variable) : Variable :=
  match firstIdx sepList var.value with
  | some splitidx =>
    { m_key := var.key
      m_description := var.value.take splitidx
      m_choices := splitOnChar '|' (var.value.drop (splitidx + 2)) }
  | none => { m_key := var.key }

/-- `Variable::key()` (src/core.h lines 336-338). -/
def Variable.key (v : Variable) : List Char := v.m_key

/-- `Variable::value( default_ )` (src/core.h lines 340-346): the stored
current value when non-empty, otherwise the caller-supplied default. -/
def Variable.value (v : Variable) (default_ : List Char) : List Char :=
  if v.m_value.isEmpty then default_ else v.m_value

/-- `Variable::description()` (src/core.h lines 353-355). -/
def Variable.description (v : Variable) : List Char := v.m_description

/-- `Variable::choices()` (src/core.h lines 357-359). -/
def Variable.choices (v : Variable) : List (List Char) := v.m_choices

/-- `Variable::isValid()` (src/core.h lines 361-363): the key is non-empty. -/
def Variable.isValid (v : Variable) : Bool := !v.m_key.isEmpty

/-- `pat` occurs as a contiguous substring of `s`. -/
def occursIn (pat s : List Char) : Prop := ∃ u w, s = u ++ pat ++ w

theorem isPrefixAt_iff (pat s : List Char) :
    isPrefixAt pat s = true ↔ ∃ r, pat ++ r = s := by
  induction pat generalizing s with
  | nil => simp [isPrefixAt]
  | cons a as ih =>
    cases s with
    | nil => simp [isPrefixAt]
    | cons b bs =>
      simp only [isPrefixAt, Bool.and_eq_true, decide_eq_true_eq, ih]
      constructor
      · rintro ⟨rfl, r, rfl⟩; exact ⟨r, rfl⟩
      · rintro ⟨r, h⟩
        injection h with h1 h2
        exact ⟨h1, r, h2⟩

theorem firstIdx_isSome_iff (pat s : List Char) :
    (firstIdx pat s).isSome = true ↔ occursIn pat s := by
  induction s with
  | nil =>
    cases hp : isPrefixAt pat [] with
    | true =>
      simp only [firstIdx, hp, if_true, Option.isSome_some, true_iff]
      rcases (isPrefixAt_iff pat []).mp hp with ⟨r, hr⟩
      rcases List.append_eq_nil.mp hr with ⟨h1, h2⟩
      exact ⟨[], [], by simp [h1]⟩
    | false =>
      simp only [firstIdx, hp, Bool.false_eq_true, if_false, Option.isSome_none,
        false_iff]
      rintro ⟨u, w, huw⟩
      have h1 := List.append_eq_nil.mp huw.symm
      have h2 := List.append_eq_nil.mp h1.1
      rw [(isPrefixAt_iff pat []).mpr ⟨w, by simp [h2.2, h1.2]⟩] at hp
      exact Bool.true_eq_false.mp hp
  | cons b bs ih =>
    cases hp : isPrefixAt pat (b :: bs) with
    | true =>
      simp only [firstIdx, hp, if_true, Option.isSome_some, true_iff]
      rcases (isPrefixAt_iff pat (b :: bs)).mp hp with ⟨r, hr⟩
      exact ⟨[], r, by simp [hr]⟩
    | false =>
      have key : occursIn pat bs ↔ occursIn pat (b :: bs) := by
        constructor
        · rintro ⟨u, w, rfl⟩
          exact ⟨b :: u, w, rfl⟩
        · rintro ⟨u, w, huw⟩
          cases u with
          | nil =>
            rw [(isPrefixAt_iff pat (b :: bs)).mpr ⟨w, by simp [huw]⟩] at hp
            exact absurd hp (by simp)
          | cons c u =>
            injection huw with h1 h2
            exact ⟨u, w, h2⟩
      rw [← key, ← ih]
      simp only [firstIdx, hp, Bool.false_eq_true, if_false]
      cases firstIdx pat bs <;> simp

instance occursIn.decidable (pat s : List Char) : Decidable (occursIn pat s) :=
  decidable_of_iff _ (firstIdx_isSome_iff pat s)

theorem firstIdx_eq_none_iff (pat s : List Char) :
    firstIdx pat s = none ↔ ¬ occursIn pat s := by
  rw [← firstIdx_isSome_iff]
  cases firstIdx pat s <;> simp

theorem occursIn_cons (pat : List Char) (c : Char) (s : List Char)
    (h : occursIn pat s) : occursIn pat (c :: s) := by
  rcases h with ⟨u, w, rfl⟩
  exact ⟨c :: u, w, rfl⟩

/-- `firstIdx` really returns the index of the FIRST occurrence: for a
two-character pattern `[a, b]` with `a ≠ b` (such as `"; "`), searching
`pre ++ [a, b] ++ post` where `pre` is occurrence-free finds index
`pre.length`. -/
theorem firstIdx_concat_two (a b : Char) (hab : a ≠ b) (pre post : List Char)
    (h : ¬ occursIn [a, b] pre) :
    firstIdx [a, b] (pre ++ [a, b] ++ post) = some pre.length := by
  induction pre with
  | nil => simp [firstIdx, isPrefixAt]
  | cons c pre ih =>
    have hstep : (c :: pre) ++ [a, b] ++ post = c :: (pre ++ [a, b] ++ post) := by
      simp
    have hnp : isPrefixAt [a, b] (c :: (pre ++ [a, b] ++ post)) = false := by
      cases hq : isPrefixAt [a, b] (c :: (pre ++ [a, b] ++ post)) with
      | false => rfl
      | true =>
        exfalso
        rcases (isPrefixAt_iff _ _).mp hq with ⟨r, hr⟩
        injection hr with hc hr2
        cases pre with
        | nil =>
          injection hr2 with hb _
          exact hab (hb.symm.trans rfl) |>.elim
        | cons d pre2 =>
          have hd : d = b := by
            have : b :: r = d :: (pre2 ++ [a, b] ++ post) := by
              simpa using hr2
            injection this with hd _
            exact hd.symm
          exact h ⟨[], pre2, by simp [hc, hd]⟩
    rw [hstep]
    rw [show firstIdx [a, b] (c :: (pre ++ [a, b] ++ post)) =
        if isPrefixAt [a, b] (c :: (pre ++ [a, b] ++ post)) then some 0
        else (firstIdx [a, b] (pre ++ [a, b] ++ post)).map (· + 1) from rfl]
    rw [hnp]
    have hpre : ¬ occursIn [a, b] pre := fun hx => h (occursIn_cons _ c _ hx)
    rw [ih hpre]
    rfl

/-- Join a list of parts with a single separator character between
consecutive parts: the (obviously correct) inverse of `splitOnChar`. -/
def joinWith (c : Char) : List (List Char) → List Char
  | [] => []
  | [x] => x
  | x :: y :: ys => x ++ c :: joinWith c (y :: ys)

/-- No part of the list contains the character `c`. -/
def hasChar (c : Char) : List Char → Bool
  | [] => false
  | x :: xs => x = c || hasChar c xs

def allWithoutChar (c : Char) : List (List Char) → Bool
  | [] => true
  | p :: ps => !hasChar c p && allWithoutChar c ps

theorem splitOnChar_ne_nil (c : Char) (s : List Char) : splitOnChar c s ≠ [] := by
  cases s with
  | nil => simp [splitOnChar]
  | cons x xs =>
    rw [splitOnChar]
    by_cases hx : x = c
    · simp [hx]
    · simp only [hx, if_false]
      cases splitOnChar c xs <;> simp

theorem joinWith_cons_cons (c : Char) (x : Char) (y : List Char)
    (ys : List (List Char)) :
    joinWith c ((x :: y) :: ys) = x :: joinWith c (y :: ys) := by
  cases ys with
  | nil => rfl
  | cons z zs => simp [joinWith]

/-- Splitting on `c` and re-joining with `c` is the identity: `splitOnChar`
preserves order, duplicates and empty entries — nothing is merged or
dropped. -/
theorem joinWith_splitOnChar (c : Char) (s : List Char) :
    joinWith c (splitOnChar c s) = s := by
  induction s with
  | nil => rfl
  | cons x xs ih =>
    rw [splitOnChar]
    by_cases hx : x = c
    · simp only [hx, if_true]
      rcases hrest : splitOnChar c xs with - | ⟨y, ys⟩
      · exact absurd hrest (splitOnChar_ne_nil c xs)
      · rw [hrest] at ih
        rw [show joinWith c ([] :: y :: ys) = [] ++ c :: joinWith c (y :: ys) from
          rfl]
        simp [ih]
    · simp only [hx, if_false]
      rcases hrest : splitOnChar c xs with - | ⟨y, ys⟩
      · exact absurd hrest (splitOnChar_ne_nil c xs)
      · rw [hrest] at ih
        rw [joinWith_cons_cons]
        rw [ih]

/-- No part produced by `splitOnChar c` contains the separator `c`. -/
theorem allWithoutChar_splitOnChar (c : Char) (s : List Char) :
    allWithoutChar c (splitOnChar c s) = true := by
  induction s with
  | nil => rfl
  | cons x xs ih =>
    rw [splitOnChar]
    by_cases hx : x = c
    · simp only [hx, if_true]
      simp [allWithoutChar, hasChar, ih]
    · simp only [hx, if_false]
      rcases hrest : splitOnChar c xs with - | ⟨y, ys⟩
      · exact absurd hrest (splitOnChar_ne_nil c xs)
      · rw [hrest] at ih
        simp only [allWithoutChar, hasChar, Bool.and_eq_true] at ih ⊢
        refine ⟨?_, ih.2⟩
        simp only [Bool.not_eq_true', Bool.or_eq_false_iff]
        refine ⟨by simpa using hx, ?_⟩
        simpa using ih.1

theorem ofRetroVariable_m_key (key value : List Char) :
    (Variable.ofRetroVariable ⟨key, value⟩).m_key = key := by
  rw [Variable.ofRetroVariable]
  cases firstIdx sepList value <;> rfl

theorem ofRetroVariable_m_value (key value : List Char) :
    (Variable.ofRetroVariable ⟨key, value⟩).m_value = [] := by
  rw [Variable.ofRetroVariable]
  cases firstIdx sepList value <;> rfl

/-- Claim C1: for every option descriptor string that does not contain the
separator `"; "`, constructing a `Variable` from it still records the
Variable: `key()` returns the plugin-supplied key, `description()` is empty
and `choices()` is the empty list, and `key()`/`value()` remain callable
(the Lean embedding is total by construction, and `value` falls back to the
caller-supplied default). -/
theorem variable_parse_without_separator (key value d : List Char)
    (h : ¬ occursIn sepList value) :
    (Variable.ofRetroVariable ⟨key, value⟩).key = key ∧
    (Variable.ofRetroVariable ⟨key, value⟩).description = [] ∧
    (Variable.ofRetroVariable ⟨key, value⟩).choices = [] ∧
    (Variable.ofRetroVariable ⟨key, value⟩).value d = d := by
  have hnone : firstIdx sepList value = none := (firstIdx_eq_none_iff _ _).mpr h
  rw [Variable.key, Variable.description, Variable.choices, Variable.value,
    Variable.ofRetroVariable, hnone]
  exact ⟨rfl, rfl, rfl, rfl⟩

theorem variable_parse_without_separator_witness :
    (Variable.ofRetroVariable ⟨['k'], ['a', ';', 'b']⟩).key = ['k'] ∧
    (Variable.ofRetroVariable ⟨['k'], ['a', ';', 'b']⟩).description = [] ∧
    (Variable.ofRetroVariable ⟨['k'], ['a', ';', 'b']⟩).choices = [] ∧
    (Variable.ofRetroVariable ⟨['k'], ['a', ';', 'b']⟩).value ['d'] = ['d'] :=
  variable_parse_without_separator ['k'] ['a', ';', 'b'] ['d'] (by decide)

/-- Claim C2: for every option descriptor containing `"; "`, the constructed
`Variable` has `description()` equal to exactly the substring before the
FIRST occurrence of `"; "` and `choices()` equal to exactly the in-order
split of the substring after the separator on `'|'`; re-joining the split
with `'|'` restores that substring (so order is preserved and duplicate and
empty entries are kept), and no produced choice contains the separator
character. -/
theorem variable_parse_with_separator (key pre post : List Char)
    (h : ¬ occursIn sepList pre) :
    (Variable.ofRetroVariable ⟨key, pre ++ sepList ++ post⟩).description = pre ∧
    (Variable.ofRetroVariable ⟨key, pre ++ sepList ++ post⟩).choices =
      splitOnChar '|' post ∧
    joinWith '|' (splitOnChar '|' post) = post ∧
    allWithoutChar '|' (splitOnChar '|' post) = true := by
  have hidx : firstIdx sepList (pre ++ sepList ++ post) = some pre.length :=
    firstIdx_concat_two ';' ' ' (by decide) pre post h
  have htake : (pre ++ sepList ++ post).take pre.length = pre := by
    rw [List.append_assoc]
    exact List.take_left pre (sepList ++ post)
  have hdrop : (pre ++ sepList ++ post).drop (pre.length + 2) = post := by
    have hlen : (pre ++ sepList).length = pre.length + 2 := by
      simp [sepList]
    rw [← hlen]
    exact List.drop_left (pre ++ sepList) post
  refine ⟨?_, ?_, joinWith_splitOnChar '|' post, allWithoutChar_splitOnChar '|' post⟩
  · simp only [Variable.description, Variable.ofRetroVariable, hidx]
    exact htake
  · simp only [Variable.choices, Variable.ofRetroVariable, hidx]
    rw [hdrop]

theorem variable_parse_with_separator_witness :
    (Variable.ofRetroVariable
      ⟨['k'], ['D', 'e'] ++ sepList ++ ['a', '|', '|', 'a']⟩).description =
        ['D', 'e'] ∧
    (Variable.ofRetroVariable
      ⟨['k'], ['D', 'e'] ++ sepList ++ ['a', '|', '|', 'a']⟩).choices =
        splitOnChar '|' ['a', '|', '|', 'a'] ∧
    joinWith '|' (splitOnChar '|' ['a', '|', '|', 'a']) = ['a', '|', '|', 'a'] ∧
    allWithoutChar '|' (splitOnChar '|' ['a', '|', '|', 'a']) = true :=
  variable_parse_with_separator ['k'] ['D', 'e'] ['a', '|', '|', 'a'] (by decide)

/-- Claim C3: `Variable::value( default_ )` is total (a Lean function) and
returns the stored current value when it is non-empty, and the
caller-supplied default when the stored value is empty (empty meaning
unset). -/
theorem variable_value_total (v : Variable) (d : List Char) :
    v.value d = if v.m_value = [] then d else v.m_value := by
  rw [Variable.value]
  cases hv : v.m_value <;> simp [hv]

/-- Claim C10: `Variable::isValid()` returns `true` iff the key is
non-empty; a default-constructed `Variable` is invalid, and a `Variable`
constructed from any descriptor (well-formed or not) with a non-empty key
is valid. -/
theorem variable_isValid_iff :
    (∀ v : Variable, v.isValid = true ↔ v.m_key ≠ []) ∧
    Variable.mkDefault.isValid = false ∧
    (∀ key value : List Char,
      (Variable.ofRetroVariable ⟨key, value⟩).isValid = true ↔ key ≠ []) := by
  have hgen : ∀ v : Variable, v.isValid = true ↔ v.m_key ≠ [] := by
    intro v
    rw [Variable.isValid]
    cases hv : v.m_key <;> simp [hv]
  refine ⟨hgen, rfl, ?_⟩
  intro key value
  rw [hgen, ofRetroVariable_m_key]

/-- `Core::Error` (src/core.h lines 133-165): the closed enumeration of load
errors, with the constructor names of the source. -/
inductive Error where
  | CORENOERROR
  | CORELOAD
  | CORENOTLIBRARY
  | CORENOTFOUND
  | COREACCESSDENIED
  | COREUNKNOWNERROR
  | GAMENOTFOUND
  | GAMEACCESSDENIED
  | GAMEUNKNOWNERROR
  deriving DecidableEq, Fintype

/-- The spec's two load-error families plus the no-error case. -/
inductive LoadFamily where
  | noErrorFam
  | coreLoadFam
  | contentLoadFam
  deriving DecidableEq

/-- The spec's subkind vocabulary for load errors. -/
inductive LoadSubkind where
  | notFound
  | accessDenied
  | unknownFsError
  | genericLoadFailure
  | invalidLibraryFormat
  | noErrorKind
  deriving DecidableEq

/-- Family of each `Error` constructor, read off the comments in core.h:
`CORE*` values describe failures to load the core (shared library), `GAME*`
values failures to load the game (content). -/
def Error.family : Error → LoadFamily
  | .CORENOERROR => .noErrorFam
  | .CORELOAD => .coreLoadFam
  | .CORENOTLIBRARY => .coreLoadFam
  | .CORENOTFOUND => .coreLoadFam
  | .COREACCESSDENIED => .coreLoadFam
  | .COREUNKNOWNERROR => .coreLoadFam
  | .GAMENOTFOUND => .contentLoadFam
  | .GAMEACCESSDENIED => .contentLoadFam
  | .GAMEUNKNOWNERROR => .contentLoadFam

/-- Subkind of each `Error` constructor, read off the comments in core.h:
`CORELOAD` is the generic could-not-load-as-shared-library catch-all,
`CORENOTLIBRARY` the wrong-extension (invalid library format) case, and the
`*NOTFOUND`/`*ACCESSDENIED`/`*UNKNOWNERROR` pairs are the filesystem
subkinds shared by both families. -/
def Error.subkind : Error → LoadSubkind
  | .CORENOERROR => .noErrorKind
  | .CORELOAD => .genericLoadFailure
  | .CORENOTLIBRARY => .invalidLibraryFormat
  | .CORENOTFOUND => .notFound
  | .COREACCESSDENIED => .accessDenied
  | .COREUNKNOWNERROR => .unknownFsError
  | .GAMENOTFOUND => .notFound
  | .GAMEACCESSDENIED => .accessDenied
  | .GAMEUNKNOWNERROR => .unknownFsError

/-- Claim C4 counterexample: the content-load family has NO catch-all
generic-load-failure value — `CORELOAD` is the only generic catch-all and it
belongs to the core-load family, so the claim that each of the two families
contains a generic-load-failure subkind is false. -/
theorem error_no_content_generic_counterexample :
    (¬ ∃ e : Error, e.family = LoadFamily.contentLoadFam ∧
      e.subkind = LoadSubkind.genericLoadFailure) ∧
    Error.CORELOAD.family = LoadFamily.coreLoadFam := by
  decide

/-- Claim C4 (amended): `Error` is a closed enumeration of exactly nine
values; both load-error families contain the subkinds not-found,
access-denied and unknown-filesystem-error; the core-load family
additionally contains the catch-all generic-load-failure (`CORELOAD`) and
the core-load-specific invalid-library-format (`CORENOTLIBRARY`); the
content-load family consists of exactly its three filesystem subkinds and
contains neither a generic catch-all nor an invalid-library-format value;
and there is a distinct no-error value. -/
theorem error_enumeration_amended :
    Fintype.card Error = 9 ∧
    (∀ e : Error, e.family = LoadFamily.contentLoadFam ↔
      (e = .GAMENOTFOUND ∨ e = .GAMEACCESSDENIED ∨ e = .GAMEUNKNOWNERROR)) ∧
    (∀ e : Error, e.family = LoadFamily.coreLoadFam ↔
      (e = .CORELOAD ∨ e = .CORENOTLIBRARY ∨ e = .CORENOTFOUND ∨
        e = .COREACCESSDENIED ∨ e = .COREUNKNOWNERROR)) ∧
    (∃ e : Error, e.family = LoadFamily.coreLoadFam ∧
      e.subkind = LoadSubkind.notFound) ∧
    (∃ e : Error, e.family = LoadFamily.coreLoadFam ∧
      e.subkind = LoadSubkind.accessDenied) ∧
    (∃ e : Error, e.family = LoadFamily.coreLoadFam ∧
      e.subkind = LoadSubkind.unknownFsError) ∧
    (∃ e : Error, e.family = LoadFamily.contentLoadFam ∧
      e.subkind = LoadSubkind.notFound) ∧
    (∃ e : Error, e.family = LoadFamily.contentLoadFam ∧
      e.subkind = LoadSubkind.accessDenied) ∧
    (∃ e : Error, e.family = LoadFamily.contentLoadFam ∧
      e.subkind = LoadSubkind.unknownFsError) ∧
    Error.CORELOAD.family = LoadFamily.coreLoadFam ∧
    Error.CORELOAD.subkind = LoadSubkind.genericLoadFailure ∧
    Error.CORENOTLIBRARY.family = LoadFamily.coreLoadFam ∧
    Error.CORENOTLIBRARY.subkind = LoadSubkind.invalidLibraryFormat ∧
    (¬ ∃ e : Error, e.family = LoadFamily.contentLoadFam ∧
      e.subkind = LoadSubkind.genericLoadFailure) ∧
    (¬ ∃ e : Error, e.family = LoadFamily.contentLoadFam ∧
      e.subkind = LoadSubkind.invalidLibraryFormat) ∧
    (∀ e : Error, e.family = LoadFamily.noErrorFam ↔ e = .CORENOERROR) := by
  decide

end Core

/-- A resolved function pointer: `none` models the C++ `nullptr`, `some a`
a non-null address. -/
def FnPtr : Type := Option Nat

/-- `struct LibretroSymbols` (src/core.h lines 43-116): one field per
function-pointer member, in source order — the mandatory libretro core
entry points, the frontend set-callback registration points, and the
optional core-defined callbacks. -/
structure LibretroSymbols where
  retro_api_version : FnPtr
  retro_cheat_reset : FnPtr
  retro_cheat_set : FnPtr
  retro_deinit : FnPtr
  retro_get_memory_data : FnPtr
  retro_get_memory_size : FnPtr
  retro_get_region : FnPtr
  retro_get_system_av_info : FnPtr
  retro_get_system_info : FnPtr
  retro_init : FnPtr
  retro_load_game : FnPtr
  retro_load_game_special : FnPtr
  retro_reset : FnPtr
  retro_run : FnPtr
  retro_serialize : FnPtr
  retro_serialize_size : FnPtr
  retro_unload_game : FnPtr
  retro_unserialize : FnPtr
  retro_set_audio_sample : FnPtr
  retro_set_audio_sample_batch : FnPtr
  retro_set_controller_port_device : FnPtr
  retro_set_environment : FnPtr
  retro_set_input_poll : FnPtr
  retro_set_input_state : FnPtr
  retro_set_video_refresh : FnPtr
  retro_audio : FnPtr
  retro_audio_set_state : FnPtr
  retro_frame_time : FnPtr
  retro_keyboard_event : FnPtr

/-- `LibretroSymbols::clear()` (src/core.h lines 82-114): assign `nullptr`
to every member, mirroring the source's assignment list. -/
def LibretroSymbols.clear (_s : LibretroSymbols) : LibretroSymbols where
  retro_api_version := none
  retro_cheat_reset := none
  retro_cheat_set := none
  retro_deinit := none
  retro_init := none
  retro_get_memory_data := none
  retro_get_memory_size := none
  retro_get_region := none
  retro_get_system_av_info := none
  retro_get_system_info := none
  retro_load_game := none
  retro_load_game_special := none
  retro_reset := none
  retro_run := none
  retro_serialize := none
  retro_serialize_size := none
  retro_unload_game := none
  retro_unserialize := none
  retro_set_audio_sample := none
  retro_set_audio_sample_batch := none
  retro_set_controller_port_device := none
  retro_set_environment := none
  retro_set_input_poll := none
  retro_set_input_state := none
  retro_set_video_refresh := none
  retro_audio := none
  retro_audio_set_state := none
  retro_frame_time := none
  retro_keyboard_event := none

/-- Claim C7: after `LibretroSymbols::clear()` runs, every function-pointer
member of the symbol table — all mandatory core entry points, all frontend
set-callback registration points, and all optional core-defined callbacks —
is null; no member keeps a stale pointer, whatever the table held before. -/
theorem libretroSymbols_clear_all_null (s : LibretroSymbols) :
    s.clear.retro_api_version = none ∧
    s.clear.retro_cheat_reset = none ∧
    s.clear.retro_cheat_set = none ∧
    s.clear.retro_deinit = none ∧
    s.clear.retro_get_memory_data = none ∧
    s.clear.retro_get_memory_size = none ∧
    s.clear.retro_get_region = none ∧
    s.clear.retro_get_system_av_info = none ∧
    s.clear.retro_get_system_info = none ∧
    s.clear.retro_init = none ∧
    s.clear.retro_load_game = none ∧
    s.clear.retro_load_game_special = none ∧
    s.clear.retro_reset = none ∧
    s.clear.retro_run = none ∧
    s.clear.retro_serialize = none ∧
    s.clear.retro_serialize_size = none ∧
    s.clear.retro_unload_game = none ∧
    s.clear.retro_unserialize = none ∧
    s.clear.retro_set_audio_sample = none ∧
    s.clear.retro_set_audio_sample_batch = none ∧
    s.clear.retro_set_controller_port_device = none ∧
    s.clear.retro_set_environment = none ∧
    s.clear.retro_set_input_poll = none ∧
    s.clear.retro_set_input_state = none ∧
    s.clear.retro_set_video_refresh = none ∧
    s.clear.retro_audio = none ∧
    s.clear.retro_audio_set_state = none ∧
    s.clear.retro_frame_time = none ∧
    s.clear.retro_keyboard_event = none :=
  ⟨rfl, rfl, rfl, rfl, rfl, rfl, rfl, rfl, rfl, rfl, rfl, rfl, rfl, rfl, rfl,
    rfl, rfl, rfl, rfl, rfl, rfl, rfl, rfl, rfl, rfl, rfl, rfl, rfl, rfl⟩

namespace Core

/-- `Core::State` (src/core.h lines 126-131). -/
inductive State where
  | STATEUNINITIALIZED
  | STATEREADY
  | STATEFINISHED
  | STATEERROR
  deriving DecidableEq

/-- `retro_pixel_format` (libretro.h, external ABI header): the pixel
formats the adapter can negotiate. -/
inductive retro_pixel_format where
  | RETRO_PIXEL_FORMAT_0RGB1555
  | RETRO_PIXEL_FORMAT_XRGB8888
  | RETRO_PIXEL_FORMAT_RGB565
  deriving DecidableEq

/-- `Core::avInfoStruct` (src/core.h lines 167-170): a pointer to the
negotiated `retro_system_av_info` (modelled as an address) plus the
negotiated pixel format. -/
structure avInfoStruct where
  avInfo : Nat
  pixelFormat : retro_pixel_format

/-- The payload of `signalStateChanged`, as a tagged variant in place of the
C++ union `Core::stateChangedData` (src/core.h lines 172-175), so that a
payload of the wrong kind for a state tag is observable. -/
inductive stateChangedData where
  | noPayload
  | avInfoPayload (info : avInfoStruct)
  | errorPayload (e : Error)

/-- Modelled from the spec: the emission sites of `signalStateChanged` are
in core.cpp, which is not under src/ (src/core.h line 191 only declares the
signal).  Per the header comment (src/core.h lines 27-31) and spec §4.2,
each state transition emits exactly one notification: `newState` is the new
state, `info` the negotiated AVInfo+pixel format and `err` the specific
error of the transition. -/
def emitStateChanged (newState : State) (info : avInfoStruct) (err : Error) :
    List (State × stateChangedData) :=
  match newState with
  | .STATEUNINITIALIZED => [(newState, .noPayload)]
  | .STATEREADY => [(newState, .avInfoPayload info)]
  | .STATEFINISHED => [(newState, .noPayload)]
  | .STATEERROR => [(newState, .errorPayload err)]

/-- The spec's payload contract, written from its words: nothing for
Uninitialized/Finished, the negotiated AVInfo+pixel format for Ready, the
specific Error value for Error. -/
def expectedPayload : State → avInfoStruct → Error → stateChangedData
  | .STATEUNINITIALIZED, _, _ => .noPayload
  | .STATEFINISHED, _, _ => .noPayload
  | .STATEREADY, info, _ => .avInfoPayload info
  | .STATEERROR, _, err => .errorPayload err

/-- Claim C5: every state transition emits exactly one state-change
notification, its tag is the new state, and its payload is determined by
the new state — no payload for Uninitialized and Finished, the negotiated
AVInfo plus pixel format for Ready, the specific Error value for Error; the
emitted notification always carries the payload kind prescribed for its
state tag. -/
theorem stateChanged_payload_per_state (info : avInfoStruct) (err : Error) :
    (∀ s : State, (emitStateChanged s info err).length = 1) ∧
    emitStateChanged .STATEUNINITIALIZED info err =
      [(.STATEUNINITIALIZED, .noPayload)] ∧
    emitStateChanged .STATEFINISHED info err = [(.STATEFINISHED, .noPayload)] ∧
    emitStateChanged .STATEREADY info err =
      [(.STATEREADY, .avInfoPayload info)] ∧
    emitStateChanged .STATEERROR info err = [(.STATEERROR, .errorPayload err)] ∧
    (∀ s : State, emitStateChanged s info err = [(s, expectedPayload s info err)]) := by
  refine ⟨?_, rfl, rfl, rfl, rfl, ?_⟩ <;> intro s <;> cases s <;> rfl

/-- A fixed audio/video buffer pool of 30 slots with its running index,
modelling `int16_t *audioBufferPool[30]` with `audioBufferPoolIndex`
(src/core.h lines 267-274) and `uchar *videoBufferPool[30]` with
`videoBufferPoolIndex` (src/core.h lines 280-282); the payload type `α` is
an audio frame for the former and a video frame for the latter. -/
structure BufferPool (α : Type) where
  slots : Fin 30 → Option α
  index : Nat

/-- An interleaved stereo audio frame (`int16_t` samples). -/
def AudioFrame : Type := List Int

/-- A video frame: pixel data plus width, height and pitch, as handed to
`videoRefreshCallback`. -/
structure VideoFrame where
  data : List Nat
  width : Nat
  height : Nat
  pitch : Nat

/-- A pool before any frame was produced: empty slots, index 0. -/
def BufferPool.fresh (α : Type) : BufferPool α where
  slots := fun _ => none
  index := 0

/-- Modelled from the spec: the audio/video callback bodies that fill the
pools live in core.cpp, which is not under src/ (src/core.h lines 298-304
only declares them).  Per spec §4.3, producing a frame stores it in the slot
at the current index and advances the index cyclically modulo the pool
capacity 30, overwriting the oldest slot when the consumer has fallen a
full pool behind. -/
def BufferPool.produce {α : Type} (p : BufferPool α) (x : α) : BufferPool α where
  slots := Function.update p.slots ⟨p.index % 30, Nat.mod_lt _ (by decide)⟩ (some x)
  index := (p.index + 1) % 30

/-- Produce a sequence of frames in order, with no consumption in
between. -/
def BufferPool.produceAll {α : Type} (p : BufferPool α) (l : List α) :
    BufferPool α :=
  l.foldl BufferPool.produce p

theorem produceAll_index {α : Type} (l : List α) :
    ∀ p : BufferPool α, p.index < 30 →
      (p.produceAll l).index = (p.index + l.length) % 30 := by
  induction l with
  | nil =>
    intro p hp
    rw [show (p.produceAll []).index = p.index from rfl]
    rw [show p.index + [].length = p.index from rfl]
    exact (Nat.mod_eq_of_lt hp).symm
  | cons x t ih =>
    intro p hp
    rw [show p.produceAll (x :: t) = (p.produce x).produceAll t from rfl]
    rw [ih (p.produce x) (Nat.mod_lt _ (by decide))]
    rw [show (p.produce x).index = (p.index + 1) % 30 from rfl]
    rw [Nat.mod_add_mod]
    congr 1
    simp [Nat.add_comm, Nat.add_assoc, Nat.add_left_comm]

theorem produceAll_concat {α : Type} (p : BufferPool α) (l : List α) (x : α) :
    p.produceAll (l.concat x) = (p.produceAll l).produce x := by
  rw [BufferPool.produceAll, BufferPool.produceAll, List.concat_eq_append,
    List.foldl_append]
  rfl

theorem produceAll_concat_slot {α : Type} (p : BufferPool α) (l : List α)
    (x : α) (hp : p.index < 30) :
    (p.produceAll (l.concat x)).slots
      ⟨(p.index + l.length) % 30, Nat.mod_lt _ (by decide)⟩ = some x := by
  rw [produceAll_concat]
  rw [show ((p.produceAll l).produce x).slots =
    Function.update (p.produceAll l).slots
      ⟨(p.produceAll l).index % 30, Nat.mod_lt _ (by decide)⟩ (some x) from rfl]
  have hidx : (p.produceAll l).index % 30 = (p.index + l.length) % 30 := by
    rw [produceAll_index l p hp]
    exact Nat.mod_eq_of_lt (Nat.mod_lt _ (by decide))
  have hfin : (⟨(p.produceAll l).index % 30, Nat.mod_lt _ (by decide)⟩ : Fin 30) =
      ⟨(p.index + l.length) % 30, Nat.mod_lt _ (by decide)⟩ := Fin.ext hidx
  rw [hfin, Function.update_same]

/-- Claim C6: each buffer pool (audio and video alike — the theorem is
uniform in the frame type `α`) has 30 slots, the pool index stays in
`[0, 30)` and advances cyclically modulo 30 across every produce operation;
after 31 frames are produced without any consumption (30 frames `l` and a
31st frame `x`), slot 0 holds the 31st frame's data, the 1st frame's data
having been overwritten. -/
theorem bufferPool_cyclic_overwrite {α : Type} (p : BufferPool α) (y : α)
    (l : List α) (x : α) (hp : p.index < 30) (hl : l.length = 30) :
    ((p.produce y).index = (p.index + 1) % 30 ∧ (p.produce y).index < 30 ∧
      (p.produce y).slots ⟨p.index, hp⟩ = some y) ∧
    (BufferPool.fresh α).index = 0 ∧
    ((BufferPool.fresh α).produceAll (l.concat x)).slots ⟨0, by decide⟩ =
      some x := by
  have hwr : (p.produce y).slots ⟨p.index, hp⟩ = some y := by
    rw [show (p.produce y).slots =
      Function.update p.slots ⟨p.index % 30, Nat.mod_lt _ (by decide)⟩ (some y)
      from rfl]
    have hfin : (⟨p.index % 30, Nat.mod_lt _ (by decide)⟩ : Fin 30) =
        ⟨p.index, hp⟩ := Fin.ext (Nat.mod_eq_of_lt hp)
    rw [hfin, Function.update_same]
  refine ⟨⟨rfl, Nat.mod_lt _ (by decide), hwr⟩, rfl, ?_⟩
  have h := produceAll_concat_slot (BufferPool.fresh α) l x
    (show (0 : Nat) < 30 by decide)
  have hfin : (⟨((BufferPool.fresh α).index + l.length) % 30,
      Nat.mod_lt _ (by decide)⟩ : Fin 30) = ⟨0, by decide⟩ := by
    apply Fin.ext
    rw [show (BufferPool.fresh α).index = 0 from rfl, hl]
  rw [hfin] at h
  exact h

theorem bufferPool_cyclic_overwrite_witness :
    (((BufferPool.fresh Nat).produce 5).index =
        ((BufferPool.fresh Nat).index + 1) % 30 ∧
      ((BufferPool.fresh Nat).produce 5).index < 30 ∧
      ((BufferPool.fresh Nat).produce 5).slots
        ⟨(BufferPool.fresh Nat).index, by decide⟩ = some 5) ∧
    (BufferPool.fresh Nat).index = 0 ∧
    ((BufferPool.fresh Nat).produceAll ((List.replicate 30 0).concat 42)).slots
      ⟨0, by decide⟩ = some 42 :=
  bufferPool_cyclic_overwrite (BufferPool.fresh Nat) 5 (List.replicate 30 0) 42
    (by decide) (by decide)

/-- Modelled from the spec: `Core::saveSRAM` is only declared in src/core.h
(line 289); its body lives in core.cpp, which is not under src/.  Per spec
§4.5, saving copies the plugin's reported memory region verbatim to the
save file (one flat binary file, no header). -/
def saveSRAM (region : List Nat) : List Nat := region

/-- Modelled from the spec: `Core::loadSRAM` is only declared in src/core.h
(line 290); its body lives in core.cpp, which is not under src/.  Per spec
§4.5, loading reads the save file (if present) and copies it into the
plugin's reported memory region only if the sizes match exactly; a size
mismatch (or a missing file) is recoverable and leaves the region
untouched — never a partial or truncated copy. -/
def loadSRAM (file : Option (List Nat)) (region : List Nat) : List Nat :=
  match file with
  | none => region
  | some data => if data.length = region.length then data else region

/-- Claim C8: saving an SRAM region of size N and loading it back into a
plugin-reported region of the same size N yields byte-identical content;
when the saved data's size differs from the region's size (or there is no
file), loading is a no-op that leaves the region entirely unchanged. -/
theorem sram_roundtrip (regionA regionB file : List Nat)
    (hsz : regionB.length = regionA.length)
    (hmis : file.length ≠ regionB.length) :
    loadSRAM (some (saveSRAM regionA)) regionB = regionA ∧
    loadSRAM (some file) regionB = regionB ∧
    loadSRAM none regionB = regionB := by
  refine ⟨?_, ?_, rfl⟩
  · rw [loadSRAM, saveSRAM]
    rw [if_pos hsz.symm]
  · rw [loadSRAM]
    rw [if_neg hmis]

theorem sram_roundtrip_witness :
    loadSRAM (some (saveSRAM [1, 2, 3])) [4, 5, 6] = [1, 2, 3] ∧
    loadSRAM (some [7]) [4, 5, 6] = [4, 5, 6] ∧
    loadSRAM none [4, 5, 6] = [4, 5, 6] :=
  sram_roundtrip [1, 2, 3] [4, 5, 6] [7] (by decide) (by decide)

/-- Modelled from the spec: the process-wide active-instance pointer
`static Core *core` is declared at src/core.h lines 199-204; the code that
binds it on load lives in core.cpp, which is not under src/.  Per spec §4.3
and §9, the registry is a single slot holding at most one active adapter
instance (modelled by an instance id); `tryLoadCore` binds an instance when
the slot is empty, and a load attempted while the slot is occupied fails
fast — returning `false` and leaving the slot, hence the first instance's
state, unchanged. -/
def tryLoadCore : Option Nat → Nat → Option Nat × Bool
  | none, inst => (some inst, true)
  | some j, _ => (some j, false)

/-- Modelled from the spec: every statically-linked callback (src/core.h
lines 298-304) forwards through the single active-instance pointer: it
reaches the bound adapter instance when one is bound, and a fallback result
otherwise. -/
def dispatchCallback {β : Type} (r : Option Nat) (handler : Nat → β)
    (ifUnbound : β) : β :=
  match r with
  | some inst => handler inst
  | none => ifUnbound

/-- Claim C9: at most one adapter instance is bound to the process-wide
active-instance slot at any time (the slot after any load attempt is either
empty, the previously bound instance, or — only if the slot was empty — the
new instance), every registered callback routes through that single slot,
and a load attempted while another instance is bound fails fast, leaving
the slot unchanged rather than rebinding it. -/
theorem single_active_instance :
    (∀ i : Nat, tryLoadCore none i = (some i, true)) ∧
    (∀ j i : Nat, tryLoadCore (some j) i = (some j, false)) ∧
    (∀ (r : Option Nat) (i : Nat),
      (tryLoadCore r i).1 = none ∨
      (∃ k : Nat, (tryLoadCore r i).1 = some k ∧
        (r = some k ∨ (r = none ∧ k = i)))) ∧
    (∀ (j : Nat) (handler : Nat → Nat) (d : Nat),
      dispatchCallback (some j) handler d = handler j) := by
  refine ⟨fun i => rfl, fun j i => rfl, ?_, fun j handler d => rfl⟩
  intro r i
  cases r with
  | none => exact Or.inr ⟨i, rfl, Or.inr ⟨rfl, rfl⟩⟩
  | some j => exact Or.inr ⟨j, rfl, Or.inl rfl⟩

end Core
